import Mathlib

/-!
Verification development for the daily-lesson content pipeline of the
catherine-s-ai.github.io repository (the `tools/wealth` generation script
and its `util.mjs` helpers).

Modelling conventions used throughout this shallow embedding:

* ISO date strings `"YYYY-MM-DD"` are encoded as natural numbers
  `YYYYMMDD`, so that the numeric order coincides with the lexicographic
  (and chronological) order of the ISO strings and the year-month prefix
  `date.slice(0, 7)` becomes division by 100.  A missing / undefined
  `date` field is `none`.
* JavaScript `Map` objects keyed by strings are modelled as functions
  `String → Option v` updated pointwise (only `has`/`get` are ever used
  by this code, never iteration order).
* `JSON.parse` is an uninterpreted oracle `String → Option Json`
  (`none` models a thrown `SyntaxError`), and the network transport of
  the language-model backend is an oracle from pipeline stage to either
  a response body or a failure (transport error / non-ok status).
* Fallible JavaScript code (`throw` / rejected promises) returns
  `Except Unit` values; `process.exit(1)` and the `main().catch`
  handler are modelled by a result record carrying the exit code.
* JavaScript array `sort` (stable since ES2019) is modelled by the
  stable `List.insertionSort` with the comparator translated to a
  "comes before or ties" relation (for a total preorder the stable
  sorted permutation is unique, so any stable sort is a faithful
  model of `Array.prototype.sort`).
-/

namespace Wealth

/-- A topic candidate, as produced by `flattenTopics` in
`tools/wealth/generate-daily.mjs`: `id` and `title` are both
`topic.topic`, `order` is the computed priority key. -/
structure Candidate where
  id : String
  title : String
  level : String
  category : String
  difficulty : Option Nat
  related : List String
  order : Nat
deriving Repr, DecidableEq

/-- A live-history entry, reduced to the two fields that the selector,
the same-day guard and the archival window inspect: `metaId` models
`entry.meta.id` (`none` when the `meta` object or its `id` field is
absent) and `date` models the entry's ISO date string encoded as a
natural number (`none` when absent). -/
structure Entry where
  metaId : Option String
  date : Option Nat
deriving Repr, DecidableEq

/-- One step of `summarizeHistory`'s `forEach` loop: `if (entry.meta &&
entry.meta.id) map.set(entry.meta.id, entry.date)`.  A `some ""` id is
falsy in JavaScript, hence skipped like an absent one. -/
def summarizeStep (m : String → Option (Option Nat)) (e : Entry) :
    String → Option (Option Nat) :=
  match e.metaId with
  | some i => if i = "" then m else fun k => if k = i then some e.date else m k
  | none => m

/-- `summarizeHistory(history)`: builds a map from `entry.meta.id` to
`entry.date` by iterating the (newest-first) history front to back with
`Map.set`, so a later (older) occurrence of an id overwrites an earlier
(newer) one. -/
def summarizeHistory (history : List Entry) : String → Option (Option Nat) :=
  history.foldl summarizeStep (fun _ => none)

/-- The comparator of the recycling fallback in `pickCandidate`:
`new Date(summary.get(a.id)) - new Date(summary.get(b.id))`, read as the
"comes before or ties" Boolean relation fed to the stable sort.  An
absent or undefined date makes `new Date` produce `NaN`, and a `NaN`
comparator result is treated as `0` (a tie) by `Array.prototype.sort`. -/
def lastUsedLE (summary : String → Option (Option Nat)) (a b : Candidate) : Bool :=
  match (summary a.id).bind (fun d => d), (summary b.id).bind (fun d => d) with
  | some dateA, some dateB => decide (dateA ≤ dateB)
  | _, _ => true

/-- `pickCandidate(candidates, history)`: return the first candidate (in
catalog order) whose id is not in the history summary; if every
candidate is used, stable-sort the used candidates by their summary date
ascending and return the first, falling back to `candidates[0]`. -/
def pickCandidate (candidates : List Candidate) (history : List Entry) :
    Option Candidate :=
  if candidates.isEmpty then none
  else
    let summary := summarizeHistory history
    match candidates.find? (fun c => (summary c.id).isNone) with
    | some c => some c
    | none =>
      let usedCandidates := candidates.filter (fun c => (summary c.id).isSome)
      match usedCandidates.insertionSort (fun a b => lastUsedLE summary a b = true) with
      | c :: _ => some c
      | [] => candidates.head?

/-- One round of the feedback iteration described by the spec's
sequential-coverage property: invoke the selector and prepend the
selected candidate as the newest history entry (with the given date),
exactly the shape `coerceLesson` persists (`meta.id` = candidate id). -/
def selectStep (candidates : List Candidate) (d : Nat) (history : List Entry) :
    List Entry :=
  match pickCandidate candidates history with
  | some c => ⟨some c.id, some d⟩ :: history
  | none => history

/-- The history obtained from the empty history by `n` feedback rounds of
`selectStep`, the `k`-th round stamping date `dates k`. -/
def selectIter (candidates : List Candidate) (dates : Nat → Nat) : Nat → List Entry
  | 0 => []
  | n + 1 => selectStep candidates (dates n) (selectIter candidates dates n)

/-- The candidate selected at round `n` of the feedback iteration. -/
def pickAt (candidates : List Candidate) (dates : Nat → Nat) (n : Nat) :
    Option Candidate :=
  pickCandidate candidates (selectIter candidates dates n)

/-! ### History store / archival (`rollWindowAndArchive` in `util.mjs`) -/

/-- The body of the archive loop of `rollWindowAndArchive` for one evicted
entry: compute `month = pickMonth(entry)` (the default `pickMonth` takes
`entry?.date?.slice(0, 7)`, i.e. the year-month prefix, here `/ 100`);
skip the entry when the month is falsy; otherwise read that month's
archive file (absent file reads as `[]`), push the entry and re-sort the
file ascending by `(a.date || "").localeCompare(b.date || "")`.  The
archive directory is modelled as the map `month ↦ file contents`. -/
def archiveStep (date : α → Option Nat) (arch : Nat → List α) (entry : α) :
    Nat → List α :=
  match (date entry).map (· / 100) with
  | none => arch
  | some month =>
    fun m =>
      if m = month then
        ((arch month) ++ [entry]).insertionSort
          (fun a b => (date a).getD 0 ≤ (date b).getD 0)
      else arch m

/-- `rollWindowAndArchive(items, limit, archiveDir)`: if the item count is
within the limit return the items (and the archive directory) unchanged;
otherwise keep the first `limit` items and run each evicted item through
`archiveStep`.  The function is generic in the item type (the source
only requires a `.date` field), accessed through `date`. -/
def rollWindowAndArchive (items : List α) (limit : Nat) (arch : Nat → List α)
    (date : α → Option Nat) : List α × (Nat → List α) :=
  if items.length ≤ limit then (items, arch)
  else (items.take limit, (items.drop limit).foldl (archiveStep date) arch)

/-! ### Topic catalog loader (`flattenTopics`) -/

/-- A topic node of the nested catalog file: `topic` is the display name
(also used as the candidate id), `order` and `related_topics` are
optional. -/
structure TopicT where
  topic : String
  order : Option Nat
  related_topics : Option (List String)
deriving Repr, DecidableEq

/-- A category node of the nested catalog file. -/
structure CategoryT where
  category : String
  difficulty : Option Nat
  recommended_order : Option Nat
  topics : Option (List TopicT)
deriving Repr, DecidableEq

/-- A level node of the nested catalog file; `level` is a display string
such as `"Level 1"` from which the numeric level is extracted. -/
structure LevelT where
  level : String
  categories : Option (List CategoryT)
deriving Repr, DecidableEq

/-- Decimal value of a digit run. -/
def digitsToNat (ds : List Char) : Nat :=
  ds.foldl (fun acc c => 10 * acc + (c.toNat - 48)) 0

/-- The first maximal run of decimal digits in a character list, if any
(the match of the regular expression `/\d+/`). -/
def firstDigitRun : List Char → Option (List Char)
  | [] => none
  | c :: rest =>
    if c.isDigit then some (c :: rest.takeWhile Char.isDigit)
    else firstDigitRun rest

/-- `(level.level.match(/\d+/) || [0])[0]` coerced to a number: the first
digit run of the level name, or `0` when the name has no digits. -/
def levelNum (s : String) : Nat :=
  match firstDigitRun s.data with
  | some ds => digitsToNat ds
  | none => 0

/-- The nested traversal of `flattenTopics` before the final sort: levels
without a `categories` field and categories without a `topics` field are
skipped, each topic becomes a candidate whose order key is
`levelNum × 1000 + (recommended_order || 0) × 100 + (order || 0)`. -/
def traverseTopics (levels : List LevelT) : List Candidate :=
  levels.flatMap fun level =>
    match level.categories with
    | none => []
    | some cats =>
      cats.flatMap fun cat =>
        match cat.topics with
        | none => []
        | some topics =>
          topics.map fun topic =>
            { id := topic.topic
              title := topic.topic
              level := level.level
              category := cat.category
              difficulty := cat.difficulty
              related := topic.related_topics.getD []
              order := levelNum level.level * 1000 +
                (cat.recommended_order.getD 0) * 100 + (topic.order.getD 0) }

/-- `flattenTopics(levels)`: the nested traversal followed by the stable
ascending sort `items.sort((a, b) => a.order - b.order)`. -/
def flattenTopics (levels : List LevelT) : List Candidate :=
  (traverseTopics levels).insertionSort (fun a b => a.order ≤ b.order)

/-! ### Draft coercion (`splitSteps`, `normalizePractice`, `normalizeSources`) -/

/-- The whitespace class `\s` of the source's regular expressions,
restricted to the characters that can realistically occur in model
output (ASCII whitespace and the no-break space). -/
def jsWs (c : Char) : Bool :=
  c == ' ' || c == '\t' || c == '\n' || c == '\r' || c == '\x0b' ||
    c == '\x0c' || c == ' '

/-- Consume a maximal run of `'\n'` characters (the greedy `\n+` tail of
the split separator `/\r?\n+/`, after its first `'\n'`). -/
def dropNLRun : List Char → List Char
  | '\n' :: rest => dropNLRun rest
  | cs => cs

theorem dropNLRun_length : ∀ cs : List Char, (dropNLRun cs).length ≤ cs.length
  | [] => by simp [dropNLRun]
  | '\n' :: rest => by
    simpa [dropNLRun] using Nat.le_succ_of_le (dropNLRun_length rest)
  | c :: rest => by
    by_cases h : c = '\n'
    · subst h; simpa [dropNLRun] using Nat.le_succ_of_le (dropNLRun_length rest)
    · simp [dropNLRun, h]

/-- Fuel-driven worker for `splitNL`; the fuel only bounds the recursion
(it is always sufficient, since every step consumes at least one
character) so that the function is structurally recursive and
kernel-computable. -/
def splitNLGo : Nat → List Char → List (List Char)
  | _, [] => [[]]
  | 0, cs => [cs]
  | fuel + 1, '\n' :: rest => [] :: splitNLGo fuel (dropNLRun rest)
  | fuel + 1, '\r' :: '\n' :: rest => [] :: splitNLGo fuel (dropNLRun rest)
  | fuel + 1, c :: rest =>
    match splitNLGo fuel rest with
    | [] => [[c]]
    | p :: ps => (c :: p) :: ps

/-- `text.split(/\r?\n+/)`: split at every maximal separator consisting of
an optional `'\r'` followed by one or more `'\n'` (a lone `'\r'` is not a
separator and stays inside its piece). -/
def splitNL (cs : List Char) : List (List Char) :=
  splitNLGo cs.length cs

/-- `line.replace(/^\s*(?:\d+\.|[-*•])\s*/, "")`: strip one leading
numbering token (`digits.`) or bullet marker (`-`, `*`, `•`) together
with the whitespace around it; when the pattern does not match, the line
is returned unchanged (including its leading whitespace). -/
def stripBullet (cs : List Char) : List Char :=
  match cs.dropWhile jsWs with
  | '-' :: rest => rest.dropWhile jsWs
  | '*' :: rest => rest.dropWhile jsWs
  | '•' :: rest => rest.dropWhile jsWs
  | c :: rest =>
    if c.isDigit then
      match (c :: rest).dropWhile Char.isDigit with
      | '.' :: rest2 => rest2.dropWhile jsWs
      | _ => cs
    else cs
  | [] => cs

/-- `String.prototype.trim`: drop whitespace from both ends. -/
def trimChars (cs : List Char) : List Char :=
  ((cs.dropWhile jsWs).reverse.dropWhile jsWs).reverse

/-- `splitSteps(text)`: empty (falsy) text gives no steps; otherwise split
on newlines, strip the leading numbering or bullet marker of each line,
trim it, drop the empty lines, and keep at most 6 steps. -/
def splitSteps (text : String) : List String :=
  if text = "" then []
  else
    ((((splitNL text.data).map fun l => trimChars (stripBullet l)).filter
        fun l => !l.isEmpty).map String.mk).take 6

/-- The `steps` field of a raw practice object: a proper list, a plain
string, or absent. -/
inductive StepsRaw where
  | arr (steps : List String)
  | str (s : String)
  | missing
deriving Repr, DecidableEq

/-- A raw `practice` entry of a draft: either a plain string or an object
with an optional `title` and a `steps` field. -/
inductive PracticeRaw where
  | str (s : String)
  | obj (title : Option String) (steps : StepsRaw)
deriving Repr, DecidableEq

/-- A normalized practice entry. -/
structure PracticeItem where
  title : String
  steps : List String
deriving Repr, DecidableEq

/-- A raw `sources` entry of a draft (both fields may be absent). -/
structure SourceRaw where
  title : Option String
  url : Option String
deriving Repr, DecidableEq

/-- A normalized source entry (`url` is passed through unchanged and may
remain absent). -/
structure SourceItem where
  title : String
  url : Option String
deriving Repr, DecidableEq

/-- JavaScript `a || d` for an optional string `a`: the default wins when
the field is absent or the empty string (both falsy). -/
def jsOrStr (a : Option String) (d : String) : String :=
  match a with
  | some s => if s = "" then d else s
  | none => d

/-- `normalizePractice(raw)`: a non-array is normalized to `[]` (`none`
input); a plain-string entry is promoted to `{title, steps: []}`; an
object entry keeps `steps` when it is a proper list and otherwise runs
`splitSteps(item.steps || "")`. -/
def normalizePractice (raw : Option (List PracticeRaw)) : List PracticeItem :=
  match raw with
  | none => []
  | some items =>
    items.map fun item =>
      match item with
      | .str s => ⟨s, []⟩
      | .obj title steps =>
        ⟨jsOrStr title "",
          match steps with
          | .arr l => l
          | .str s => splitSteps s
          | .missing => splitSteps ""⟩

/-- `normalizeSources(raw)`: a non-array is normalized to `[]`; otherwise
map each entry to `{title: entry.title || "Source", url: entry.url}` and
keep at most 6. -/
def normalizeSources (raw : Option (List SourceRaw)) : List SourceItem :=
  match raw with
  | none => []
  | some items => (items.map fun e => ⟨jsOrStr e.title "Source", e.url⟩).take 6

/-! ### Content generation pipeline (`parseJSON`, `callLLM`, `generateLesson`) -/

/-- A structured (JSON) value; numbers are modelled exactly as rationals. -/
inductive Json where
  | null
  | bool (b : Bool)
  | num (q : ℚ)
  | str (s : String)
  | arr (elems : List Json)
  | obj (fields : List (String × Json))

/-- Property access on a structured value (`undefined` is `none`). -/
def Json.getField : Json → String → Option Json
  | .obj fields, k => fields.lookup k
  | _, _ => none

/-- Split a character list at the first occurrence of `pat`, returning
the part before the match and the part after it. -/
def splitOnce (pat : List Char) : List Char → Option (List Char × List Char)
  | [] => if pat = [] then some ([], []) else none
  | c :: rest =>
    if pat.isPrefixOf (c :: rest) then some ([], (c :: rest).drop pat.length)
    else (splitOnce pat rest).map fun pr => (c :: pr.1, pr.2)

/-- The capture group of `raw.match(/```json([\s\S]*?)```/)`: the text
between the first fenced opener that is followed by a closing fence and
the earliest such closing fence, or `none` when the pattern does not
match anywhere in `raw`. -/
def fenceInner (raw : String) : Option String :=
  match splitOnce "```json".data raw.data with
  | none => none
  | some (_, afterOpen) =>
    match splitOnce "```".data afterOpen with
    | none => none
    | some (inner, _) => some (String.mk inner)

/-- `parseJSON(raw)`: attempt a direct `JSON.parse`; on failure, if the
text contains a ```` ```json … ``` ```` fenced block, strip the fence and
parse the inner content; fail only when that also fails (the source's
"loose parse" comment re-throws without further repair).  `jp` is the
`JSON.parse` oracle. -/
def parseJSON (jp : String → Option Json) (raw : String) : Except Unit Json :=
  match jp raw with
  | some v => .ok v
  | none =>
    match fenceInner raw with
    | some inner =>
      match jp inner with
      | some v => .ok v
      | none => .error ()
    | none => .error ()

/-- The four round-trips of the generation pipeline. -/
inductive Stage where
  | blueprint
  | draft
  | critique
  | revise
deriving Repr, DecidableEq

/-- The credential-bearing part of the process environment:
`process.env.LLM_API_KEY` and `process.env.DEEPSEEK_API_KEY`. -/
structure Env where
  llmApiKey : Option String
  deepseekApiKey : Option String
deriving Repr, DecidableEq

/-- `process.env.LLM_API_KEY || process.env.DEEPSEEK_API_KEY`, normalized
so that a falsy result (absent or empty on both variables) is `none`,
which is exactly when `callLLM` throws `"Missing LLM_API_KEY"`. -/
def apiKeyOf (env : Env) : Option String :=
  match
    (match env.llmApiKey with
     | some s => if s = "" then env.deepseekApiKey else some s
     | none => env.deepseekApiKey)
  with
  | some s => if s = "" then none else some s
  | none => none

/-- `callLLM(prompt)`: throw when no API key is configured, otherwise
perform the chat-completions request for the given stage; `tr` is the
transport oracle and its `error` covers both transport failures and
non-ok upstream responses. -/
def callLLM (env : Env) (tr : Stage → Except Unit String) (stage : Stage) :
    Except Unit String :=
  match apiKeyOf env with
  | none => .error ()
  | some _ => tr stage

/-- `critique.score < 9` for a structured critique value whose `score`
field is a number (per the critique-stage contract `{critique, score}`);
an absent `score` compares as `NaN < 9`, i.e. `false`. -/
def scoreLt9 (critique : Json) : Bool :=
  match critique.getField "score" with
  | some (.num q) => decide (q < 9)
  | _ => false

/-- The outcome of one `generateLesson` attempt: the final content (or the
stage failure that aborted the attempt) together with the list of
pipeline stages whose language-model call was issued. -/
structure GenResult where
  result : Except Unit Json
  calls : List Stage

/-- `generateLesson(candidate, history)`: blueprint, draft and critique
stages in sequence, each a `callLLM` round-trip followed by `parseJSON`;
the revise stage runs only when `critique.score < 9`, and its parsed
output replaces the draft as the final content.  Any stage failure
aborts the whole attempt. -/
def generateLesson (env : Env) (tr : Stage → Except Unit String)
    (jp : String → Option Json) : GenResult :=
  match callLLM env tr .blueprint with
  | .error e => ⟨.error e, [.blueprint]⟩
  | .ok blueprintRaw =>
    match parseJSON jp blueprintRaw with
    | .error e => ⟨.error e, [.blueprint]⟩
    | .ok _blueprint =>
      match callLLM env tr .draft with
      | .error e => ⟨.error e, [.blueprint, .draft]⟩
      | .ok draftRaw =>
        match parseJSON jp draftRaw with
        | .error e => ⟨.error e, [.blueprint, .draft]⟩
        | .ok draft =>
          match callLLM env tr .critique with
          | .error e => ⟨.error e, [.blueprint, .draft, .critique]⟩
          | .ok critiqueRaw =>
            match parseJSON jp critiqueRaw with
            | .error e => ⟨.error e, [.blueprint, .draft, .critique]⟩
            | .ok critique =>
              if scoreLt9 critique then
                match callLLM env tr .revise with
                | .error e => ⟨.error e, [.blueprint, .draft, .critique, .revise]⟩
                | .ok revisedRaw =>
                  match parseJSON jp revisedRaw with
                  | .error e =>
                    ⟨.error e, [.blueprint, .draft, .critique, .revise]⟩
                  | .ok revised =>
                    ⟨.ok revised, [.blueprint, .draft, .critique, .revise]⟩
              else ⟨.ok draft, [.blueprint, .draft, .critique]⟩

/-! ### Orchestrator (`main` in `generate-daily.mjs`) -/

/-- `backoff(attempt)` from `util.mjs`: 2000 ms for attempt 0, 5000 ms
afterwards. -/
def backoff (attempt : Nat) : Nat :=
  if attempt = 0 then 2000 else 5000

/-- `const maxRetries = dryRun ? 0 : 2`. -/
def maxRetries (dryRun : Bool) : Nat :=
  if dryRun then 0 else 2

/-- `coerceLesson(candidate, lesson, date)` projected onto the fields of
`Entry`: the persisted record carries `date` and `meta.id =
candidate.id` (the full record also carries the normalized content,
which none of the verified properties read). -/
def coerceLesson (candidate : Candidate) (_lesson : Json) (date : Nat) : Entry :=
  ⟨some candidate.id, some date⟩

/-- The same-day guard of `main`:
`history.length > 0 && history[0].date === todayStr && !dryRun`. -/
def alreadyDoneToday (history : List Entry) (todayStr : Nat) (dryRun : Bool) :
    Bool :=
  match history with
  | [] => false
  | e :: _ => e.date == some todayStr && !dryRun

/-- The on-disk state the run reads and writes: the live history file
(`DAILY`) and the archive directory (`DAILY_ARCH`, month ↦ file). -/
structure FS where
  daily : List Entry
  archive : Nat → List Entry

/-- The inputs of one run: the parsed topic catalog, today's date, the
dry-run flag, the credential environment and the two oracles (transport,
indexed by attempt number, and `JSON.parse`). -/
structure MainInput where
  topicsRaw : List LevelT
  todayStr : Nat
  dryRun : Bool
  env : Env
  transport : Nat → Stage → Except Unit String
  jp : String → Option Json

/-- The observable outcome of a run: the process exit code, how many
`generateLesson` attempts were made, the backoff delays slept between
attempts, and the final file-system state. -/
structure MainResult where
  exitCode : Nat
  attemptsMade : Nat
  delays : List Nat
  fs : FS

/-- The retry loop of `main`: run `generateLesson`; on failure increment
the attempt counter, exit the process when it exceeds `maxRetries`, and
otherwise sleep `backoff(attempts - 1)` and try again.  Returns the
coerced lesson (if any), the number of attempts made and the delays
slept; `fuel` is `maxRetries + 1 - attempts`, which bounds the loop. -/
def attemptLoop (env : Env) (transport : Nat → Stage → Except Unit String)
    (jp : String → Option Json) (cand : Candidate) (todayStr : Nat)
    (mr : Nat) : Nat → Nat → Option Entry × Nat × List Nat
  | _, 0 => (none, 0, [])
  | attempts, fuel + 1 =>
    match (generateLesson env (transport attempts) jp).result with
    | .ok content => (some (coerceLesson cand content todayStr), 1, [])
    | .error _ =>
      if attempts + 1 > mr then (none, 1, [])
      else
        let d := backoff (attempts + 1 - 1)
        let r := attemptLoop env transport jp cand todayStr mr (attempts + 1) fuel
        (r.1, r.2.1 + 1, d :: r.2.2)

/-- `main()`: load the catalog and history, short-circuit when today's
lesson already exists (unless dry-running), pick a candidate (exit 1
when there is none), run the retry loop (exit 1 when it exhausts),
prepend the lesson, roll the 60-entry window with archival, and persist
the kept live set unless dry-running (the archive writes of
`rollWindowAndArchive` happen in either mode). -/
def mainRun (inp : MainInput) (fs0 : FS) : MainResult :=
  let candidates := flattenTopics inp.topicsRaw
  let history := fs0.daily
  if alreadyDoneToday history inp.todayStr inp.dryRun then
    ⟨0, 0, [], fs0⟩
  else
    match pickCandidate candidates history with
    | none => ⟨1, 0, [], fs0⟩
    | some candidate =>
      let mr := maxRetries inp.dryRun
      let r := attemptLoop inp.env inp.transport inp.jp candidate inp.todayStr
        mr 0 (mr + 1)
      match r.1 with
      | none => ⟨1, r.2.1, r.2.2, fs0⟩
      | some lesson =>
        let rolled := rollWindowAndArchive (lesson :: history) 60 fs0.archive
          Entry.date
        if inp.dryRun then ⟨0, r.2.1, r.2.2, ⟨fs0.daily, rolled.2⟩⟩
        else ⟨0, r.2.1, r.2.2, ⟨rolled.1, rolled.2⟩⟩

/-! ### Shared concrete fixtures -/

/-- A one-topic catalog used by concrete instantiations. -/
def sampleTopics : List LevelT :=
  [⟨"Level 1", some [⟨"Budgeting", some 2, some 1, some [⟨"budget", some 1, none⟩]⟩]⟩]

/-- The single candidate that `flattenTopics` produces from
`sampleTopics`. -/
def sampleCand : Candidate :=
  ⟨"budget", "budget", "Level 1", "Budgeting", some 2, [], 1101⟩

/-- An input whose environment carries no API key on either variable; its
transport and parse oracles always succeed, so any failure of a run on
this input can only come from the missing credential. -/
def inpNoKey : MainInput :=
  ⟨sampleTopics, 20240115, false, ⟨none, none⟩,
    fun _ _ => .ok "x", fun _ => some (.obj [])⟩

/-- An empty file-system state. -/
def fsEmpty : FS := ⟨[], fun _ => []⟩

/-! ### Helper lemmas about the orchestrator -/

theorem alreadyDoneToday_dryRun (history : List Entry) (todayStr : Nat) :
    alreadyDoneToday history todayStr true = false := by
  cases history <;> simp [alreadyDoneToday]

theorem generateLesson_noKey (env : Env) (tr : Stage → Except Unit String)
    (jp : String → Option Json) (h : apiKeyOf env = none) :
    generateLesson env tr jp = ⟨.error (), [.blueprint]⟩ := by
  simp [generateLesson, callLLM, h]

theorem attemptLoop_succ (env : Env) (transport : Nat → Stage → Except Unit String)
    (jp : String → Option Json) (cand : Candidate) (todayStr : Nat)
    (mr attempts fuel : Nat) :
    attemptLoop env transport jp cand todayStr mr attempts (fuel + 1) =
      match (generateLesson env (transport attempts) jp).result with
      | .ok content => (some (coerceLesson cand content todayStr), 1, [])
      | .error _ =>
        if attempts + 1 > mr then (none, 1, [])
        else
          let d := backoff (attempts + 1 - 1)
          let r := attemptLoop env transport jp cand todayStr mr (attempts + 1) fuel
          (r.1, r.2.1 + 1, d :: r.2.2) := rfl

/-- Claim C4 (confirmed).  Idempotent same-day guard: when the newest
history entry's date equals today and the run is not a dry run, `main`
returns before any pipeline stage: exit code 0, zero `generateLesson`
attempts, no backoff delay, and both the live history file and the
archive directory unchanged. -/
theorem main_same_day_guard (inp : MainInput) (fs0 : FS) (e : Entry)
    (rest : List Entry) (hdaily : fs0.daily = e :: rest)
    (hdate : e.date = some inp.todayStr) (hdry : inp.dryRun = false) :
    mainRun inp fs0 = ⟨0, 0, [], fs0⟩ := by
  simp [mainRun, alreadyDoneToday, hdaily, hdate, hdry]

/-- Witness for C4 at a concrete input. -/
theorem main_same_day_guard_witness :
    mainRun ⟨sampleTopics, 20240115, false, ⟨some "k", none⟩,
        fun _ _ => .ok "x", fun _ => some (.obj [])⟩
      ⟨[⟨some "budget", some 20240115⟩], fun _ => []⟩ =
      ⟨0, 0, [], ⟨[⟨some "budget", some 20240115⟩], fun _ => []⟩⟩ :=
  main_same_day_guard _ _ ⟨some "budget", some 20240115⟩ [] rfl rfl rfl

/-- Claim C10 (confirmed).  Dry-run disables retries: the retry bound is
0 under the dry-run flag (so a single pipeline failure exits with code 1
after exactly one attempt and no backoff sleep) and 2 otherwise (so an
always-failing pipeline makes three attempts with backoff delays 2000 ms
then 5000 ms before exiting with code 1). -/
theorem dry_run_disables_retries (inp : MainInput) (fs0 : FS) (cand : Candidate)
    (hpick : pickCandidate (flattenTopics inp.topicsRaw) fs0.daily = some cand)
    (hfail : ∀ k,
      (generateLesson inp.env (inp.transport k) inp.jp).result = .error ()) :
    maxRetries true = 0 ∧ maxRetries false = 2 ∧
    (inp.dryRun = true → mainRun inp fs0 = ⟨1, 1, [], fs0⟩) ∧
    (inp.dryRun = false →
      alreadyDoneToday fs0.daily inp.todayStr false = false →
      mainRun inp fs0 = ⟨1, 3, [2000, 5000], fs0⟩) := by
  refine ⟨rfl, rfl, ?_, ?_⟩
  · intro hdry
    have h1 : attemptLoop inp.env inp.transport inp.jp cand inp.todayStr
        0 0 1 = (none, 1, []) := by
      show attemptLoop _ _ _ _ _ 0 0 (0 + 1) = _
      rw [attemptLoop_succ, hfail 0]
      rfl
    simp [mainRun, hdry, alreadyDoneToday_dryRun, hpick, maxRetries, h1]
  · intro hdry hguard
    have h1 : attemptLoop inp.env inp.transport inp.jp cand inp.todayStr
        2 2 1 = (none, 1, []) := by
      show attemptLoop _ _ _ _ _ 2 2 (0 + 1) = _
      rw [attemptLoop_succ, hfail 2]
      rfl
    have h2 : attemptLoop inp.env inp.transport inp.jp cand inp.todayStr
        2 1 2 = (none, 2, [5000]) := by
      show attemptLoop _ _ _ _ _ 2 1 (1 + 1) = _
      rw [attemptLoop_succ, hfail 1]
      simp [backoff, h1]
    have h3 : attemptLoop inp.env inp.transport inp.jp cand inp.todayStr
        2 0 3 = (none, 3, [2000, 5000]) := by
      show attemptLoop _ _ _ _ _ 2 0 (2 + 1) = _
      rw [attemptLoop_succ, hfail 0]
      simp [backoff, h2]
    simp [mainRun, hdry, hguard, hpick, maxRetries, h3]

/-- A dry-run input with no API key configured. -/
def inpDry : MainInput :=
  ⟨sampleTopics, 20240115, true, ⟨none, none⟩,
    fun _ _ => .ok "x", fun _ => some (.obj [])⟩

/-- Witness for C10: a dry run whose single (credential-failing) attempt
fails exits with code 1 after one attempt and no delay. -/
theorem dry_run_disables_retries_witness :
    mainRun inpDry fsEmpty = ⟨1, 1, [], fsEmpty⟩ :=
  (dry_run_disables_retries inpDry fsEmpty sampleCand (by decide)
    (fun _ => rfl)).2.2.1 rfl

/-- Claim C8 (corrected).  A missing credential on both environment
variables is not exempt from the retry loop: a normal run makes all
three pipeline attempts (each failing at its first `callLLM`), sleeps
the 2000 ms and 5000 ms backoff delays between them, and only then exits
with code 1; no history write occurs. -/
theorem main_missing_credential (inp : MainInput) (fs0 : FS) (cand : Candidate)
    (hkeys : inp.env.llmApiKey = none ∧ inp.env.deepseekApiKey = none)
    (hdry : inp.dryRun = false)
    (hguard : alreadyDoneToday fs0.daily inp.todayStr false = false)
    (hpick : pickCandidate (flattenTopics inp.topicsRaw) fs0.daily = some cand) :
    mainRun inp fs0 = ⟨1, 3, [2000, 5000], fs0⟩ := by
  have hkey : apiKeyOf inp.env = none := by
    simp [apiKeyOf, hkeys.1, hkeys.2]
  have hfail : ∀ k,
      (generateLesson inp.env (inp.transport k) inp.jp).result = .error () := by
    intro k
    rw [generateLesson_noKey _ _ _ hkey]
  have h1 : attemptLoop inp.env inp.transport inp.jp cand inp.todayStr
      2 2 1 = (none, 1, []) := by
    show attemptLoop _ _ _ _ _ 2 2 (0 + 1) = _
    rw [attemptLoop_succ, hfail 2]
    rfl
  have h2 : attemptLoop inp.env inp.transport inp.jp cand inp.todayStr
      2 1 2 = (none, 2, [5000]) := by
    show attemptLoop _ _ _ _ _ 2 1 (1 + 1) = _
    rw [attemptLoop_succ, hfail 1]
    simp [backoff, h1]
  have h3 : attemptLoop inp.env inp.transport inp.jp cand inp.todayStr
      2 0 3 = (none, 3, [2000, 5000]) := by
    show attemptLoop _ _ _ _ _ 2 0 (2 + 1) = _
    rw [attemptLoop_succ, hfail 0]
    simp [backoff, h2]
  simp [mainRun, hdry, hguard, hpick, maxRetries, h3]

/-- Counterexample for C8 as stated: with no API key configured on either
variable (and a transport/parse oracle pair that would otherwise always
succeed), a normal run makes three pipeline attempts and takes the
2000 ms and 5000 ms backoff delays — not "at most one attempt with no
backoff delay" — before exiting with code 1 and no history write. -/
theorem main_missing_credential_cex :
    (mainRun inpNoKey fsEmpty).exitCode = 1 ∧
    (mainRun inpNoKey fsEmpty).attemptsMade = 3 ∧
    (mainRun inpNoKey fsEmpty).delays = [2000, 5000] ∧
    (mainRun inpNoKey fsEmpty).fs.daily = [] := by
  decide

/-- Witness for the amended C8 at the concrete no-key input. -/
theorem main_missing_credential_witness :
    mainRun inpNoKey fsEmpty = ⟨1, 3, [2000, 5000], fsEmpty⟩ :=
  main_missing_credential _ _ sampleCand ⟨rfl, rfl⟩ rfl rfl (by decide)

/-- A two-candidate catalog sharing no ids, used to exercise the
recycling fallback. -/
def candA : Candidate := ⟨"a", "a", "L", "c1", none, [], 0⟩

/-- Second candidate of the two-candidate catalog. -/
def candB : Candidate := ⟨"b", "b", "L", "c2", none, [], 1⟩

/-- A newest-first history in which candidate `b` was used most recently
(date 20240103) and also, further back, on 20240101, while `a` was used
on 20240102. -/
def histC2 : List Entry :=
  [⟨some "b", some 20240103⟩, ⟨some "a", some 20240102⟩,
    ⟨some "b", some 20240101⟩]

/-- Claim C2 (code bug).  `summarizeHistory` iterates the newest-first
history with `Map.set`, so the LAST occurrence of an id — its OLDEST use
— wins, not the first: on `histC2` the map sends `"b"` to 20240101 even
though the newest entry dates `"b"` at 20240103.  Consequently the
recycling fallback of `pickCandidate` selects `b` (oldest FIRST-use
date 20240101) although `a` is the candidate with the least-recent
LAST-use date (20240102 < 20240103), contradicting the spec and the
code's own comments ("most recent use date", "Sort candidates by last
used date"). -/
theorem summarizeHistory_oldest_use_wins :
    summarizeHistory histC2 "b" = some (some 20240101) ∧
    summarizeHistory histC2 "a" = some (some 20240102) ∧
    pickCandidate [candA, candB] histC2 = some candB := by
  decide

/-- Claim C5 (confirmed).  Revise gating: with the first three stages
succeeding and the critique carrying a numeric `score`, the revise stage
is invoked if and only if the score is strictly below 9; the final
content is the parsed revise output when it runs and the original draft
otherwise. -/
theorem generateLesson_revise_gating (env : Env)
    (tr : Stage → Except Unit String) (jp : String → Option Json)
    (bRaw dRaw cRaw rRaw : String) (bJ dJ cJ rJ : Json) (q : ℚ)
    (hb : callLLM env tr .blueprint = .ok bRaw)
    (hbp : parseJSON jp bRaw = .ok bJ)
    (hd : callLLM env tr .draft = .ok dRaw)
    (hdp : parseJSON jp dRaw = .ok dJ)
    (hc : callLLM env tr .critique = .ok cRaw)
    (hcp : parseJSON jp cRaw = .ok cJ)
    (hscore : cJ.getField "score" = some (.num q))
    (hr : callLLM env tr .revise = .ok rRaw)
    (hrp : parseJSON jp rRaw = .ok rJ) :
    (q < 9 → generateLesson env tr jp =
      ⟨.ok rJ, [.blueprint, .draft, .critique, .revise]⟩) ∧
    (9 ≤ q → generateLesson env tr jp =
      ⟨.ok dJ, [.blueprint, .draft, .critique]⟩) := by
  constructor
  · intro hlt
    simp [generateLesson, hb, hbp, hd, hdp, hc, hcp, hr, hrp, scoreLt9,
      hscore, hlt]
  · intro hge
    simp [generateLesson, hb, hbp, hd, hdp, hc, hcp, scoreLt9, hscore,
      not_lt.mpr hge]

/-- A stage-indexed transport fixture. -/
def trSample : Stage → Except Unit String
  | .blueprint => .ok "B"
  | .draft => .ok "D"
  | .critique => .ok "C"
  | .revise => .ok "R"

/-- A parse-oracle fixture mapping each fixture response to a structured
value (the critique scores 5). -/
def jpSample (s : String) : Option Json :=
  if s = "B" then some (.obj [])
  else if s = "D" then some (.str "draft")
  else if s = "C" then some (.obj [("score", .num 5)])
  else if s = "R" then some (.str "revised")
  else none

/-- Witness for C5: with a critique score of 5 the revise stage runs and
its output is the final content. -/
theorem generateLesson_revise_gating_witness :
    generateLesson ⟨some "k", none⟩ trSample jpSample =
      ⟨.ok (.str "revised"), [.blueprint, .draft, .critique, .revise]⟩ :=
  (generateLesson_revise_gating ⟨some "k", none⟩ trSample jpSample
    "B" "D" "C" "R" (.obj []) (.str "draft") (.obj [("score", .num 5)])
    (.str "revised") 5 rfl rfl rfl rfl rfl rfl rfl rfl rfl).1 (by norm_num)

/-- Claim C7 (confirmed).  Fenced-output parsing: `parseJSON` first
attempts the direct parse; only when that fails and the text carries a
```` ```json … ``` ```` fence does it parse the stripped inner content; it
reports an error exactly when the direct parse fails and the fence route
is unavailable or also fails; and such a stage parse failure (here at
the critique stage, after a successful blueprint and draft) aborts the
whole `generateLesson` attempt with an error rather than committing a
partial result. -/
theorem parseJSON_fence_fallback (jp : String → Option Json) (raw : String)
    (env : Env) (tr : Stage → Except Unit String) (bRaw dRaw cRaw : String)
    (bJ dJ : Json)
    (hb : callLLM env tr .blueprint = .ok bRaw)
    (hbp : parseJSON jp bRaw = .ok bJ)
    (hd : callLLM env tr .draft = .ok dRaw)
    (hdp : parseJSON jp dRaw = .ok dJ)
    (hc : callLLM env tr .critique = .ok cRaw)
    (hcp : parseJSON jp cRaw = .error ()) :
    (∀ v, jp raw = some v → parseJSON jp raw = .ok v) ∧
    (jp raw = none → ∀ inner v, fenceInner raw = some inner →
      jp inner = some v → parseJSON jp raw = .ok v) ∧
    (parseJSON jp raw = .error () ↔
      jp raw = none ∧ ∀ inner, fenceInner raw = some inner → jp inner = none) ∧
    (generateLesson env tr jp).result = .error () := by
  refine ⟨?_, ?_, ?_, ?_⟩
  · intro v hv
    simp [parseJSON, hv]
  · intro hraw inner v hfence hv
    simp [parseJSON, hraw, hfence, hv]
  · constructor
    · intro herr
      cases hraw : jp raw with
      | some v => simp [parseJSON, hraw] at herr
      | none =>
        refine ⟨rfl, ?_⟩
        intro inner hfence
        cases hv : jp inner with
        | some v => simp [parseJSON, hraw, hfence, hv] at herr
        | none => rfl
    · rintro ⟨hraw, hall⟩
      cases hfence : fenceInner raw with
      | some inner => simp [parseJSON, hraw, hfence, hall inner hfence]
      | none => simp [parseJSON, hraw, hfence]
  · simp [generateLesson, hb, hbp, hd, hdp, hc, hcp]

/-- A parse-oracle fixture for the fence witness: only the inner text
`" 42"` of the fenced block and the plain draft responses parse. -/
def jpFence (s : String) : Option Json :=
  if s = " 42" then some (.num 42) else none

/-- A transport fixture whose critique response parses on no route. -/
def trFence : Stage → Except Unit String
  | .blueprint => .ok " 42"
  | .draft => .ok " 42"
  | .critique => .ok "bad"
  | .revise => .ok " 42"

/-- Witness for C7: a response wrapped in a ```` ```json … ``` ```` fence
parses through the fence-stripping fallback, and an unparseable critique
aborts the whole attempt. -/
theorem parseJSON_fence_fallback_witness :
    parseJSON jpFence "noise```json 42```" = .ok (.num 42) ∧
    (generateLesson ⟨some "k", none⟩ trFence jpFence).result = .error () := by
  have h := parseJSON_fence_fallback jpFence "noise```json 42```"
    ⟨some "k", none⟩ trFence " 42" " 42" "bad" (.num 42) (.num 42)
    rfl rfl rfl rfl rfl rfl
  exact ⟨h.2.1 rfl " 42" (.num 42) rfl rfl, h.2.2.2⟩

/-- A stable sort leaves the relative order of any tie class untouched:
filtering the sorted list by a predicate whose holders are pairwise
related recovers the filter of the input list. -/
theorem insertionSort_filter_ties {α : Type} (r : α → α → Prop)
    [DecidableRel r] (l : List α) (p : α → Bool)
    (hp : ∀ a b, p a = true → p b = true → r a b) :
    (l.insertionSort r).filter p = l.filter p := by
  have h1 : (l.filter p).Pairwise r :=
    List.pairwise_of_forall_mem_list fun a ha b hb =>
      hp a b (List.of_mem_filter ha) (List.of_mem_filter hb)
  have h2 : List.Sublist (l.filter p) (l.insertionSort r) :=
    List.sublist_insertionSort h1 (List.filter_sublist l)
  have h3 : List.Sublist (l.filter p) ((l.insertionSort r).filter p) := by
    simpa using h2.filter p
  have h4 : ((l.insertionSort r).filter p).length = (l.filter p).length :=
    ((List.perm_insertionSort r l).filter p).length_eq
  exact (h3.eq_of_length h4.symm).symm

/-- Claim C9 (confirmed).  Topic flattening: the flattened catalog is a
permutation of the nested traversal, sorted ascending by the order key,
stably (every tie class keeps its traversal order); and every candidate
originates from a topic of some category of some level with order key
`levelNum × 1000 + (recommended_order or 0) × 100 + (topic order or 0)`
— missing `categories`/`topics` fields are skipped rather than failing,
and missing or digit-free numeric fields contribute 0. -/
theorem flattenTopics_spec (levels : List LevelT) :
    (flattenTopics levels).Perm (traverseTopics levels) ∧
    (flattenTopics levels).Pairwise (fun a b => a.order ≤ b.order) ∧
    (∀ k : Nat, (flattenTopics levels).filter (fun c => c.order == k) =
      (traverseTopics levels).filter (fun c => c.order == k)) ∧
    (∀ c ∈ flattenTopics levels, ∃ level ∈ levels, ∃ cats,
      level.categories = some cats ∧ ∃ cat ∈ cats, ∃ topics,
        cat.topics = some topics ∧ ∃ topic ∈ topics,
          c.id = topic.topic ∧ c.title = topic.topic ∧
          c.order = levelNum level.level * 1000 +
            (cat.recommended_order.getD 0) * 100 + (topic.order.getD 0)) := by
  haveI : IsTotal Candidate (fun a b => a.order ≤ b.order) :=
    ⟨fun a b => Nat.le_total a.order b.order⟩
  haveI : IsTrans Candidate (fun a b => a.order ≤ b.order) :=
    ⟨fun _ _ _ hab hbc => Nat.le_trans hab hbc⟩
  refine ⟨List.perm_insertionSort _ _, List.sorted_insertionSort _ _, ?_, ?_⟩
  · intro k
    refine insertionSort_filter_ties _ _ _ fun a b ha hb => ?_
    have ha' : a.order = k := by simpa using ha
    have hb' : b.order = k := by simpa using hb
    simp [ha', hb']
  · intro c hc
    have hc' : c ∈ traverseTopics levels :=
      (List.perm_insertionSort _ _).mem_iff.mp hc
    simp only [traverseTopics, List.mem_flatMap] at hc'
    obtain ⟨level, hlevel, hc1⟩ := hc'
    refine ⟨level, hlevel, ?_⟩
    cases hcats : level.categories with
    | none => rw [hcats] at hc1; simp at hc1
    | some cats =>
      rw [hcats] at hc1
      simp only [List.mem_flatMap] at hc1
      obtain ⟨cat, hcat, hc2⟩ := hc1
      refine ⟨cats, rfl, cat, hcat, ?_⟩
      cases htops : cat.topics with
      | none => rw [htops] at hc2; simp at hc2
      | some topics =>
        rw [htops] at hc2
        simp only [List.mem_map] at hc2
        obtain ⟨topic, htopic, hc3⟩ := hc2
        exact ⟨topics, rfl, topic, htopic, by rw [← hc3], by rw [← hc3],
          by rw [← hc3]⟩

/-- Witness for C9 on the concrete sample catalog. -/
theorem flattenTopics_spec_witness :
    flattenTopics sampleTopics = [sampleCand] ∧
    (flattenTopics sampleTopics).Pairwise (fun a b => a.order ≤ b.order) ∧
    (flattenTopics sampleTopics).filter (fun c => c.order == 1101) =
      (traverseTopics sampleTopics).filter (fun c => c.order == 1101) :=
  ⟨by decide, (flattenTopics_spec sampleTopics).2.1,
    (flattenTopics_spec sampleTopics).2.2.1 1101⟩

/-- Dropping a prefix does not change the last element of a list that
stays non-empty. -/
theorem dropWhile_getLast?_eq (p : α → Bool) (l : List α)
    (h : l.dropWhile p ≠ []) : (l.dropWhile p).getLast? = l.getLast? := by
  induction l with
  | nil => simp at h
  | cons a t ih =>
    by_cases hp : p a
    · rw [List.dropWhile_cons_of_pos hp] at h ⊢
      have ht : t ≠ [] := by
        intro he
        rw [he] at h
        simp at h
      rw [ih h]
      cases t with
      | nil => exact absurd rfl ht
      | cons b u => simp
    · rw [List.dropWhile_cons_of_neg hp]

/-- `trimChars` is idempotent: a trimmed line is its own trim. -/
theorem trimChars_idem (cs : List Char) :
    trimChars (trimChars cs) = trimChars cs := by
  unfold trimChars
  have hBrev : ((cs.dropWhile jsWs).reverse.dropWhile jsWs).reverse.dropWhile
      jsWs = ((cs.dropWhile jsWs).reverse.dropWhile jsWs).reverse := by
    cases hBr : ((cs.dropWhile jsWs).reverse.dropWhile jsWs).reverse with
    | nil => simp
    | cons c tail =>
      have hBne : (cs.dropWhile jsWs).reverse.dropWhile jsWs ≠ [] := by
        intro h
        rw [h] at hBr
        simp at hBr
      have hc : (cs.dropWhile jsWs).head? = some c := by
        have h1 : ((cs.dropWhile jsWs).reverse.dropWhile jsWs).getLast? =
            some c := by
          rw [← List.head?_reverse, hBr, List.head?_cons]
        rwa [dropWhile_getLast?_eq _ _ hBne, List.getLast?_reverse] at h1
      have hcw : jsWs c = false := by
        have h2 := List.head?_dropWhile_not jsWs cs
        rw [hc] at h2
        exact h2
      rw [List.dropWhile_cons_of_neg (by simp [hcw])]
  rw [hBrev, List.reverse_reverse, List.dropWhile_idempotent]

/-- Claim C6 (confirmed).  Practice and sources normalization: a
plain-string practice entry is promoted to `{title, steps: []}`; an
object entry whose `steps` is a string gets `splitSteps` of it — at most
6 steps, all non-empty and trimmed; sources are capped at 6 entries with
`title` defaulting to `"Source"` when absent (or empty, which is equally
falsy). -/
theorem normalize_practice_sources (items : List PracticeRaw)
    (srcs : List SourceRaw) :
    (normalizePractice (some items)).length = items.length ∧
    (∀ (i : Nat) (s : String), items[i]? = some (.str s) →
      (normalizePractice (some items))[i]? = some ⟨s, []⟩) ∧
    (∀ (i : Nat) (t : Option String) (s : String),
      items[i]? = some (.obj t (.str s)) →
      (normalizePractice (some items))[i]? =
        some ⟨jsOrStr t "", splitSteps s⟩) ∧
    (∀ s, (splitSteps s).length ≤ 6 ∧
      ∀ st ∈ splitSteps s, st ≠ "" ∧ trimChars st.data = st.data) ∧
    (normalizeSources (some srcs)).length ≤ 6 ∧
    (∀ (j : Nat) (e : SourceRaw), j < 6 → srcs[j]? = some e →
      (normalizeSources (some srcs))[j]? =
        some ⟨jsOrStr e.title "Source", e.url⟩) ∧
    (∀ e : SourceRaw, e.title = none → jsOrStr e.title "Source" = "Source") := by
  refine ⟨by simp [normalizePractice], ?_, ?_, ?_, ?_, ?_, fun e he => by
    simp [jsOrStr, he]⟩
  · intro i s hi
    simp [normalizePractice, List.getElem?_map, hi]
  · intro i t s hi
    simp [normalizePractice, List.getElem?_map, hi]
  · intro s
    constructor
    · by_cases hs : s = "" <;>
        simp [splitSteps, hs, List.length_take, Nat.min_le_left]
    · intro st hst
      by_cases hs : s = ""
      · simp [splitSteps, hs] at hst
      · simp only [splitSteps, hs, if_neg] at hst
        have hst' := List.mem_of_mem_take hst
        rw [List.mem_map] at hst'
        obtain ⟨l, hl, hmk⟩ := hst'
        rw [List.mem_filter] at hl
        obtain ⟨hlmem, hlne⟩ := hl
        rw [List.mem_map] at hlmem
        obtain ⟨piece, _, hlval⟩ := hlmem
        constructor
        · intro hempty
          rw [← hmk] at hempty
          have hln : l = [] := by
            simpa using congrArg String.data hempty
          rw [hln] at hlne
          simp at hlne
        · have hdata : st.data = l := by rw [← hmk]
          rw [hdata, ← hlval, trimChars_idem]
  · simp [normalizeSources, List.length_take, Nat.min_le_left]
  · intro j e hj hje
    simp [normalizeSources, List.getElem?_take, hj, List.getElem?_map, hje]

/-- Witness for C6: a string step-list is split, bullet-stripped, trimmed
and capped; a title-less source defaults to `"Source"`. -/
theorem normalize_practice_sources_witness :
    (normalizePractice (some [.str "hello",
        .obj (some "T") (.str "1. alpha\n- beta\n\n  \n* gamma")]))[1]? =
      some ⟨"T", ["alpha", "beta", "gamma"]⟩ ∧
    normalizeSources (some [⟨none, some "u"⟩]) = [⟨"Source", some "u"⟩] := by
  have h := normalize_practice_sources
    [.str "hello", .obj (some "T") (.str "1. alpha\n- beta\n\n  \n* gamma")]
    [⟨none, some "u"⟩]
  refine ⟨(h.2.2.1 1 (some "T") "1. alpha\n- beta\n\n  \n* gamma"
    (by decide)).trans (by decide), by decide⟩

/-- What the archive loop does to one month file: the final contents of
month `m` are a permutation of the initial contents plus the processed
entries keyed to `m`; a month that receives no entry is untouched; a
month that receives at least one entry ends up sorted ascending by
date. -/
theorem archiveFold_spec (date : α → Option Nat) (L : List α)
    (arch : Nat → List α) (m : Nat) :
    ((L.foldl (archiveStep date) arch) m).Perm
      (arch m ++ L.filter fun e => (date e).map (· / 100) == some m) ∧
    ((L.filter fun e => (date e).map (· / 100) == some m) = [] →
      (L.foldl (archiveStep date) arch) m = arch m) ∧
    ((L.filter fun e => (date e).map (· / 100) == some m) ≠ [] →
      ((L.foldl (archiveStep date) arch) m).Pairwise
        fun a b => (date a).getD 0 ≤ (date b).getD 0) := by
  haveI : IsTotal α (fun a b => (date a).getD 0 ≤ (date b).getD 0) :=
    ⟨fun a b => Nat.le_total _ _⟩
  haveI : IsTrans α (fun a b => (date a).getD 0 ≤ (date b).getD 0) :=
    ⟨fun _ _ _ hab hbc => Nat.le_trans hab hbc⟩
  induction L generalizing arch with
  | nil => simp
  | cons e L ih =>
    simp only [List.foldl_cons, List.filter_cons]
    cases hdm : (date e).map (· / 100) with
    | none =>
      have harch : archiveStep date arch e = arch := by
        simp [archiveStep, hdm]
      rw [harch]
      simpa [hdm] using ih arch
    | some month =>
      by_cases hm : month = m
      · subst hm
        have harch : archiveStep date arch e month =
            ((arch month ++ [e]).insertionSort
              fun a b => (date a).getD 0 ≤ (date b).getD 0) := by
          simp [archiveStep, hdm]
        rw [if_pos (by simp)]
        refine ⟨?_, ?_, fun _ => ?_⟩
        · have p1 := (ih (archiveStep date arch e)).1
          rw [harch] at p1
          have p2 : ((arch month ++ [e]).insertionSort
                fun a b => (date a).getD 0 ≤ (date b).getD 0).Perm
              (arch month ++ [e]) := List.perm_insertionSort _ _
          have p3 := p1.trans (p2.append_right _)
          simpa [List.append_assoc] using p3
        · intro h
          exact absurd h (List.cons_ne_nil _ _)
        · by_cases hF : (L.filter fun e => (date e).map (· / 100) ==
              some month) = []
          · rw [(ih (archiveStep date arch e)).2.1 hF, harch]
            exact List.sorted_insertionSort _ _
          · exact (ih (archiveStep date arch e)).2.2 hF
      · have harch : archiveStep date arch e m = arch m := by
          simp [archiveStep, hdm, Ne.symm hm]
        rw [if_neg (by simp [hm])]
        have h1 := (ih (archiveStep date arch e)).1
        have h2 := (ih (archiveStep date arch e)).2.1
        have h3 := (ih (archiveStep date arch e)).2.2
        rw [harch] at h1 h2
        exact ⟨h1, h2, h3⟩

/-- Claim C3 (amended, proved).  Bounded history with archival of dated
entries: the kept live list never exceeds 60 entries and is the input
when the input fits, and the first 60 entries otherwise; each archive
month file ends as a permutation of its previous contents plus exactly
the evicted entries carrying that year-month (so an evicted entry is
added to exactly one file, the one keyed by its year-month); every file
that received an entry is sorted ascending by date; and every evicted
entry that has a date lands in its own month's file. -/
theorem rollWindowAndArchive_bounded (items : List Entry)
    (arch : Nat → List Entry) :
    (rollWindowAndArchive items 60 arch Entry.date).1.length ≤ 60 ∧
    (items.length ≤ 60 →
      rollWindowAndArchive items 60 arch Entry.date = (items, arch)) ∧
    (60 < items.length →
      (rollWindowAndArchive items 60 arch Entry.date).1 = items.take 60 ∧
      (∀ m : Nat, ((rollWindowAndArchive items 60 arch Entry.date).2 m).Perm
        (arch m ++
          (items.drop 60).filter fun e => e.date.map (· / 100) == some m)) ∧
      (∀ m : Nat,
        ((items.drop 60).filter fun e => e.date.map (· / 100) == some m) ≠
          [] →
        ((rollWindowAndArchive items 60 arch Entry.date).2 m).Pairwise
          fun a b => a.date.getD 0 ≤ b.date.getD 0) ∧
      (∀ e ∈ items.drop 60, ∀ d : Nat, e.date = some d →
        e ∈ (rollWindowAndArchive items 60 arch Entry.date).2 (d / 100))) := by
  by_cases hlen : items.length ≤ 60
  · refine ⟨?_, fun _ => ?_, fun hgt => absurd hgt (by omega)⟩
    · simp [rollWindowAndArchive, hlen, hlen]
    · simp [rollWindowAndArchive, hlen]
  · have hgt : ¬ items.length ≤ 60 := hlen
    refine ⟨?_, fun hle => absurd hle hlen, fun _ => ⟨?_, ?_, ?_, ?_⟩⟩
    · simp [rollWindowAndArchive, hgt]
    · simp [rollWindowAndArchive, hgt]
    · intro m
      simpa [rollWindowAndArchive, hgt] using
        (archiveFold_spec Entry.date (items.drop 60) arch m).1
    · intro m hF
      simpa [rollWindowAndArchive, hgt] using
        (archiveFold_spec Entry.date (items.drop 60) arch m).2.2 hF
    · intro e he d hd
      have hp := (archiveFold_spec Entry.date (items.drop 60) arch (d / 100)).1
      have hmem : e ∈ arch (d / 100) ++
          (items.drop 60).filter fun x => x.date.map (· / 100) ==
            some (d / 100) := by
        refine List.mem_append_right _ (List.mem_filter.mpr ⟨he, ?_⟩)
        simp [hd]
      have := hp.mem_iff.mpr hmem
      simpa [rollWindowAndArchive, hgt] using this

/-- The entry evicted in the C3 counterexample: it has no `date` field,
so `pickMonth` is falsy and the archive loop skips it. -/
def entryNoDate : Entry := ⟨some "z", none⟩

/-- 61 items whose 61st (oldest) entry has no date. -/
def items61bad : List Entry :=
  List.replicate 60 ⟨some "x", some 20240102⟩ ++ [entryNoDate]

/-- Counterexample for C3 as stated: on a 61-item input whose evicted
entry has no date, the entry is evicted (it is in the dropped suffix)
yet every archive file is left empty — the evicted entry is appended to
no archive file at all, because `rollWindowAndArchive` skips entries
with a falsy month key. -/
theorem rollWindowAndArchive_total_archival_cex :
    entryNoDate ∈ items61bad.drop 60 ∧
    (rollWindowAndArchive items61bad 60 (fun _ => []) Entry.date).2 =
      (fun _ => ([] : List Entry)) ∧
    (rollWindowAndArchive items61bad 60 (fun _ => []) Entry.date).1 =
      List.replicate 60 ⟨some "x", some 20240102⟩ := by
  refine ⟨by decide, rfl, by decide⟩

/-- 61 dated items for the C3 witness. -/
def items61 : List Entry :=
  List.replicate 60 ⟨some "x", some 20240102⟩ ++ [⟨some "y", some 20240101⟩]

/-- Witness for the amended C3: the dated evicted entry lands in the
2024-01 archive file. -/
theorem rollWindowAndArchive_bounded_witness :
    60 < items61.length ∧
    (⟨some "y", some 20240101⟩ : Entry) ∈
      (rollWindowAndArchive items61 60 (fun _ => []) Entry.date).2 202401 :=
  ⟨by decide, ((rollWindowAndArchive_bounded items61 (fun _ => [])).2.2
    (by decide)).2.2.2 ⟨some "y", some 20240101⟩ (by decide) 20240101 rfl⟩

/-- Characterization of the summary map built by the `forEach` fold: a
key is present exactly when some history entry carries it as a non-empty
`meta.id` (regardless of the initial accumulator it may also be present
there). -/
theorem summarizeFold_isSome (h : List Entry)
    (m : String → Option (Option Nat)) (k : String) :
    ((h.foldl summarizeStep m) k).isSome = true ↔
      ((m k).isSome = true ∨ (k ≠ "" ∧ ∃ e ∈ h, e.metaId = some k)) := by
  induction h generalizing m with
  | nil => simp
  | cons e t ih =>
    rw [List.foldl_cons, ih]
    cases hme : e.metaId with
    | none => simp [summarizeStep, hme]
    | some i =>
      by_cases hi : i = ""
      · subst hi
        simp only [summarizeStep, hme, if_pos rfl, List.mem_cons]
        constructor
        · rintro (hm | ⟨hk, e', he', hk'⟩)
          · exact Or.inl hm
          · exact Or.inr ⟨hk, e', Or.inr he', hk'⟩
        · rintro (hm | ⟨hk, e', (rfl | he'), hk'⟩)
          · exact Or.inl hm
          · rw [hme] at hk'
            exact absurd (Option.some.inj hk').symm hk
          · exact Or.inr ⟨hk, e', he', hk'⟩
      · by_cases hk : k = i
        · subst hk
          simp [summarizeStep, hme, hi]
        · simp only [summarizeStep, hme, if_neg hi, if_neg hk,
            List.mem_cons]
          constructor
          · rintro (hm | ⟨hk', e', he', hk''⟩)
            · exact Or.inl hm
            · exact Or.inr ⟨hk', e', Or.inr he', hk''⟩
          · rintro (hm | ⟨hk', e', (rfl | he'), hk''⟩)
            · exact Or.inl hm
            · rw [hme] at hk''
              exact absurd (Option.some.inj hk'') (Ne.symm hk)
            · exact Or.inr ⟨hk', e', he', hk''⟩

/-- A key is in the history summary exactly when a history entry carries
it as a non-empty `meta.id`. -/
theorem summarizeHistory_isSome_iff (h : List Entry) (k : String) :
    (summarizeHistory h k).isSome = true ↔
      (k ≠ "" ∧ ∃ e ∈ h, e.metaId = some k) := by
  rw [summarizeHistory, summarizeFold_isSome]
  simp

/-- `find?` only looks at the predicate's values on the list's members. -/
theorem find?_congr_mem {p q : α → Bool} (l : List α)
    (h : ∀ a ∈ l, p a = q a) : l.find? p = l.find? q := by
  induction l with
  | nil => rfl
  | cons a t ih =>
    rw [List.find?_cons, List.find?_cons, h a (List.mem_cons_self a t)]
    cases q a with
    | true => rfl
    | false => exact ih fun x hx => h x (List.mem_cons_of_mem a hx)

/-- In a list of candidates with pairwise-distinct ids, the first
candidate whose id is not among the ids of the first `n` candidates is
the `n`-th candidate itself. -/
theorem find?_fresh (l : List Candidate) (n : Nat)
    (hnd : (l.map Candidate.id).Nodup) (hn : n < l.length) :
    l.find? (fun c => !(decide (c.id ∈ (l.take n).map Candidate.id))) =
      l[n]? := by
  induction l generalizing n with
  | nil => simp at hn
  | cons a t ih =>
    cases n with
    | zero =>
      rw [List.find?_cons_of_pos _ (by simp)]
      simp
    | succ n =>
      rw [List.map_cons, List.nodup_cons] at hnd
      have hid : ∀ x ∈ t, x.id ≠ a.id := by
        intro x hx hcontra
        exact hnd.1 (hcontra ▸ List.mem_map_of_mem Candidate.id hx)
      rw [List.find?_cons_of_neg _ (by simp [List.take_succ_cons])]
      have hstep : t.find?
          (fun c => !(decide (c.id ∈ ((a :: t).take (n + 1)).map
            Candidate.id))) =
          t.find? (fun c => !(decide (c.id ∈ (t.take n).map
            Candidate.id))) := by
        refine find?_congr_mem t fun x hx => ?_
        simp only [List.take_succ_cons, List.map_cons, List.mem_cons]
        rw [decide_eq_decide.mpr]
        constructor
        · rintro (h | h)
          · exact absurd h (hid x hx)
          · exact h
        · exact Or.inr
      rw [hstep, ih n hnd.2 (by simpa using hn)]
      simp

/-- When the summary of the history holds exactly the ids of the first
`n` candidates, the selector picks the `n`-th candidate. -/
theorem pickCandidate_prefix (cs : List Candidate) (h : List Entry)
    (n : Nat) (hnd : (cs.map Candidate.id).Nodup)
    (hne : ∀ c ∈ cs, c.id ≠ "") (hn : n < cs.length)
    (hsum : ∀ k, (summarizeHistory h k).isSome = true ↔
      (k ≠ "" ∧ k ∈ (cs.take n).map Candidate.id)) :
    pickCandidate cs h = cs[n]? := by
  have hcs : ¬ (cs.isEmpty = true) := by
    cases cs
    · simp at hn
    · simp
  have hfind : cs.find? (fun c => (summarizeHistory h c.id).isNone) =
      cs[n]? := by
    rw [find?_congr_mem cs (q := fun c =>
      !(decide (c.id ∈ (cs.take n).map Candidate.id))) ?_]
    · exact find?_fresh cs n hnd hn
    · intro c hc
      have h2 : c.id ≠ "" := hne c hc
      cases hx : summarizeHistory h c.id with
      | none =>
        have hns : ¬ c.id ∈ (cs.map Candidate.id).take n := by
          intro hmem
          rw [← List.map_take] at hmem
          have hcontra := (hsum c.id).mpr ⟨h2, hmem⟩
          rw [hx] at hcontra
          simp at hcontra
        simp [hx, hns]
      | some v =>
        have hmem : c.id ∈ (cs.map Candidate.id).take n := by
          have hm := ((hsum c.id).mp (by rw [hx]; rfl)).2
          rw [List.map_take] at hm
          exact hm
        simp [hx, hmem]
  simp only [pickCandidate]
  rw [if_neg hcs]
  have ⟨c, hc⟩ : ∃ c, cs[n]? = some c := ⟨cs[n], List.getElem?_eq_getElem hn⟩
  rw [hfind, hc]

/-- After `n` feedback rounds, the recorded `meta.id`s are exactly the
ids of the first `n` candidates (newest first), and the round-`n` pick
is the `n`-th candidate, provided all ids are distinct and non-empty. -/
theorem selectIter_spec (cs : List Candidate) (dates : Nat → Nat)
    (hnd : (cs.map Candidate.id).Nodup) (hne : ∀ c ∈ cs, c.id ≠ "") :
    ∀ n, n ≤ cs.length →
      ((selectIter cs dates n).map Entry.metaId =
        (cs.take n).reverse.map fun c => some c.id) ∧
      (n < cs.length → pickAt cs dates n = cs[n]?) := by
  intro n
  induction n with
  | zero =>
    intro _
    refine ⟨by simp [selectIter], fun hn => ?_⟩
    refine pickCandidate_prefix cs [] 0 hnd hne hn fun k => ?_
    simp [summarizeHistory]
  | succ n ih =>
    intro hn1
    have hn : n < cs.length := Nat.lt_of_succ_le hn1
    obtain ⟨hids, hpick⟩ := ih (Nat.le_of_lt hn)
    have hpickn := hpick hn
    simp only [pickAt] at hpickn
    have hsome : cs[n]? = some (cs.get ⟨n, hn⟩) := by
      rw [List.getElem?_eq_getElem hn]
      rfl
    have hstep : selectIter cs dates (n + 1) =
        ⟨some (cs.get ⟨n, hn⟩).id, some (dates n)⟩ ::
          selectIter cs dates n := by
      rw [hsome] at hpickn
      simp only [selectIter, selectStep, hpickn]
    have hids1 : (selectIter cs dates (n + 1)).map Entry.metaId =
        (cs.take (n + 1)).reverse.map fun c => some c.id := by
      have h2 : (List.map (fun c => some c.id) cs).take (n + 1) =
          (List.map (fun c => some c.id) cs).take n ++
            [some ((cs.get ⟨n, hn⟩).id)] := by
        rw [List.take_succ, List.getElem?_map, hsome]
        rfl
      rw [hstep, List.map_cons, hids]
      simp [h2, List.reverse_append]
    refine ⟨hids1, fun hn1' => ?_⟩
    refine pickCandidate_prefix cs _ (n + 1) hnd hne hn1' fun k => ?_
    rw [summarizeHistory_isSome_iff]
    constructor
    · rintro ⟨hk, e, he, hke⟩
      refine ⟨hk, ?_⟩
      have hmm : some k ∈ (selectIter cs dates (n + 1)).map Entry.metaId :=
        List.mem_map.mpr ⟨e, he, hke⟩
      rw [hids1] at hmm
      simp only [List.mem_map, List.mem_reverse] at hmm
      obtain ⟨c, hc, hck⟩ := hmm
      exact List.mem_map.mpr ⟨c, hc, Option.some.inj hck⟩
    · rintro ⟨hk, hmem⟩
      refine ⟨hk, ?_⟩
      obtain ⟨c, hc, hck⟩ := List.mem_map.mp hmem
      have hmm : some k ∈ (selectIter cs dates (n + 1)).map Entry.metaId := by
        rw [hids1]
        exact List.mem_map.mpr ⟨c, List.mem_reverse.mpr hc, by rw [hck]⟩
      obtain ⟨e, he, hke⟩ := List.mem_map.mp hmm
      exact ⟨e, he, hke⟩

/-- Claim C1 (amended, proved).  Sequential coverage for catalogs with
distinct, non-empty candidate ids: starting from the empty history and
feeding each selection back as the newest entry, the `n`-th invocation
of the selector returns the `n`-th catalog candidate, for every
`n < |catalog|` — every candidate is selected in catalog order exactly
once before any candidate is selected a second time. -/
theorem pickCandidate_sequential_coverage (cs : List Candidate)
    (dates : Nat → Nat) (hnd : (cs.map Candidate.id).Nodup)
    (hne : ∀ c ∈ cs, c.id ≠ "") (n : Nat) (hn : n < cs.length) :
    pickAt cs dates n = cs[n]? :=
  (selectIter_spec cs dates hnd hne n (Nat.le_of_lt hn)).2 hn

/-- A candidate whose id is the empty string. -/
def candE : Candidate := ⟨"", "t", "L", "c", none, [], 0⟩

/-- Counterexample for C1 as stated: the claim quantifies over all
catalogs with distinct ids, but a candidate with the (distinct) id `""`
is never recorded by `summarizeHistory` (`entry.meta.id` is falsy), so
it is selected again at round 1 before the second candidate has ever
been selected — coverage in catalog order fails. -/
theorem pickCandidate_sequential_coverage_cex :
    pickAt [candE, candB] (fun _ => 20240101) 0 = some candE ∧
    pickAt [candE, candB] (fun _ => 20240101) 1 = some candE ∧
    candE ≠ candB := by
  decide

/-- Witness for the amended C1 on a concrete two-candidate catalog. -/
theorem pickCandidate_sequential_coverage_witness :
    pickAt [candA, candB] (fun _ => 20240101) 1 = some candB := by
  have h := pickCandidate_sequential_coverage [candA, candB]
    (fun _ => 20240101) (by decide) (by decide) 1 (by decide)
  simpa using h

end Wealth
